import Mathlib

/-! sloth-simple-comments: the Go source adapter and the specification aggregator

A shallow embedding of `internal/parser/strategy/golang/parser.go`.

* Pointers held by the Go `parser` value (`Spec`, `Logger`) are modelled by
  threading the `parser` record through every function: the record that comes
  back carries the contents of `*p.Spec` and the entries written to
  `*p.Logger`.
* A Go `error` is `Option GoError`; `none` is `nil`.
* A Go `map[string]T` is an association list `List (String × T)`.  A `range`
  loop over a map visits the entries in an order chosen by the runtime; the
  order of the association list stands for the order of that visit.
* The package `grammar` and the file system are collaborators of this file and
  are taken as parameters (`Grammar`, `FileSystem`).
-/

namespace Sloth

/-! ## Errors and the logger -/

/-- Sentinel errors that the code tests for with `errors.Is`. -/
inductive Sentinel where
  | ErrParseSource
  | ErrNotExist
  deriving DecidableEq, Repr

/-- A non-nil Go `error`: its message (`err.Error()`) and the sentinels found in
its chain of wrapped errors. -/
structure GoError where
  msg : String
  chain : List Sentinel
  deriving DecidableEq, Repr

/-- The Go call `errors.Is(err, target)`; false for a nil error. -/
def errorsIs (err : Option GoError) (target : Sentinel) : Bool :=
  match err with
  | none => false
  | some e => decide (target ∈ e.chain)

/-- One call made on `logging.Logger`. -/
inductive LogEntry where
  | Info (msg : String)
  | Error (err : GoError) (msg : String)
  deriving DecidableEq, Repr

/-! ## The data model (`sloth.Spec`, `sloth.SLO`, `go/ast`) -/

/-- The record `sloth.SLO`.  The aggregator copies entries and never reads their
fields; `Objective` holds the objective in thousandths of a percent. -/
structure SLO where
  Name : String
  Description : String
  Objective : Nat
  deriving DecidableEq, Repr

/-- The record `sloth.Spec`; a nil `Labels` map and a nil `SLOs` slice are the
empty list. -/
structure Spec where
  Version : String
  Service : String
  Labels : List (String × String)
  SLOs : List SLO
  deriving DecidableEq, Repr

/-- The constant `sloth.Version`. -/
def slothVersion : String := "prometheus/v1"

/-- A comment group of `go/ast`; `Text` is the result of `comment.Text()`. -/
structure CommentGroup where
  Text : String
  deriving DecidableEq, Repr

/-- The record `ast.File`, reduced to the field that the parser reads. -/
structure File where
  Comments : List CommentGroup
  deriving DecidableEq, Repr

/-- The record `ast.Package`: `Files` is a map from file name to file. -/
structure Package where
  Files : List (String × File)
  deriving DecidableEq, Repr

/-- The type `map[string]*ast.Package`. -/
abbrev PkgMap := List (String × Package)

/-- The package `grammar`, as far as this file calls it.  Both functions return
a value together with an error, as in Go. -/
structure Grammar where
  EvalService : String → Spec × Option GoError
  Eval : String → List SLO × Option GoError

/-- The Go struct `parser`. -/
structure parser where
  Spec : Spec
  GeneralInfoSource : String
  IncludedDirs : List String
  ApplicationPackages : PkgMap
  Logger : List LogEntry
  deriving DecidableEq, Repr

def defaultSourceFile : String := "main.go"

/-! ## `strings.TrimSpace` -/

/-- White space as defined by Go's `unicode.IsSpace`. -/
def isSpace (c : Char) : Bool :=
  let n := c.toNat
  n == 9 || n == 10 || n == 11 || n == 12 || n == 13 || n == 32 || n == 0x85 || n == 0xA0
    || n == 0x1680 || (0x2000 ≤ n && n ≤ 0x200A) || n == 0x2028 || n == 0x2029
    || n == 0x202F || n == 0x205F || n == 0x3000

/-- The Go function `strings.TrimSpace`. -/
def trimSpace (s : String) : String :=
  String.mk ((s.data.dropWhile isSpace).reverse.dropWhile isSpace).reverse

/-! ## The aggregator -/

/-- The method `parser.parseServiceComments`. -/
def parseServiceComments (g : Grammar) (p : parser) :
    List CommentGroup → parser × Option GoError
  | [] => (p, none)
  | comment :: comments =>
    let r := g.EvalService (trimSpace comment.Text)
    if errorsIs r.2 Sentinel.ErrParseSource then
      parseServiceComments g p comments
    else
      match r.2 with
      | some err =>
        parseServiceComments g { p with Logger := p.Logger ++ [LogEntry.Error err ""] } comments
      | none =>
        parseServiceComments g
          { p with Spec := { p.Spec with
              Service := r.1.Service, Version := r.1.Version, Labels := r.1.Labels } }
          comments

/-- The method `parser.parseSLOsComments`. -/
def parseSLOsComments (g : Grammar) (p : parser) :
    List CommentGroup → parser × Option GoError
  | [] => (p, none)
  | comment :: comments =>
    let r := g.Eval (trimSpace comment.Text)
    if errorsIs r.2 Sentinel.ErrParseSource then
      parseSLOsComments g p comments
    else
      match r.2 with
      | some err =>
        parseSLOsComments g { p with Logger := p.Logger ++ [LogEntry.Error err ""] } comments
      | none =>
        parseSLOsComments g
          { p with Spec := { p.Spec with
              SLOs := r.1.foldl (fun slos slo => slos ++ [slo]) p.Spec.SLOs } }
          comments

/-- The inner loop of `parser.Parse`: the files of one package. -/
def parseFiles (g : Grammar) (p : parser) : List (String × File) → parser
  | [] => p
  | (_, file) :: files =>
    let r1 := parseServiceComments g p file.Comments
    let p1 := match r1.2 with
      | some err => { r1.1 with Logger := r1.1.Logger ++ [LogEntry.Info err.msg] }
      | none => r1.1
    let r2 := parseSLOsComments g p1 file.Comments
    match r2.2 with
    | some err => parseFiles g { r2.1 with Logger := r2.1.Logger ++ [LogEntry.Info err.msg] } files
    | none => parseFiles g r2.1 files

/-- The outer loop of `parser.Parse`: the packages. -/
def parsePackages (g : Grammar) (p : parser) : PkgMap → parser
  | [] => p
  | (_, pkg) :: pkgs => parsePackages g (parseFiles g p pkg.Files) pkgs

/-- What `parser.Parse` hands back: the specification, the error, and the
parser with the log written during the run. -/
structure ParseResult where
  spec : Spec
  err : Option GoError
  final : parser
  deriving DecidableEq, Repr

/-- The method `parser.Parse`. -/
def Parse (g : Grammar) (p : parser) : ParseResult :=
  let p1 := parsePackages g p p.ApplicationPackages
  { spec := p1.Spec, err := none, final := p1 }

/-! ## The source adapter -/

/-- One call that `filepath.WalkDir` makes to its callback: the path, whether
`d.IsDir()` holds, and the error that the walk passes in. -/
structure WalkEntry where
  path : String
  isDir : Bool
  err : Option GoError
  deriving DecidableEq, Repr

/-- The file system as the adapter sees it.  `Stat` is the error of `os.Stat`,
`ParseDir` is `goparser.ParseDir`, and `WalkDir root` lists, in order, the calls
that `filepath.WalkDir` makes as long as the callback returns nil.  The callback
of `getPackages` returns only an error that it was handed or that `ParseDir`
returned; the sentinels `filepath.SkipDir` and `filepath.SkipAll` are left out. -/
structure FileSystem where
  Stat : String → Option GoError
  ParseDir : String → PkgMap × Option GoError
  WalkDir : String → List WalkEntry

/-- The loop `for pkgName, pkg := range foundPkgs` with its guard
`if _, ok := pkgs[pkgName]; !ok`: a package is stored only under a name that the
map does not hold yet. -/
def addMissing (pkgs : PkgMap) : PkgMap → PkgMap
  | [] => pkgs
  | (pkgName, pkg) :: foundPkgs =>
    if (pkgs.lookup pkgName).isSome then addMissing pkgs foundPkgs
    else addMissing (pkgs ++ [(pkgName, pkg)]) foundPkgs

/-- The callback that `getPackages` passes to `filepath.WalkDir`. -/
def walkFn (fs : FileSystem) (pkgs : PkgMap) (e : WalkEntry) : PkgMap × Option GoError :=
  if e.isDir then
    let r := fs.ParseDir e.path
    match r.2 with
    | some err => (pkgs, some err)
    | none => (addMissing pkgs r.1, e.err)
  else (pkgs, e.err)

/-- The walk of `filepath.WalkDir`: it stops at the first call of the callback
that returns an error and returns that error. -/
def walk (fs : FileSystem) (pkgs : PkgMap) : List WalkEntry → PkgMap × Option GoError
  | [] => (pkgs, none)
  | e :: es =>
    match walkFn fs pkgs e with
    | (pkgs1, some err) => (pkgs1, some err)
    | (pkgs1, none) => walk fs pkgs1 es

/-- The function `getPackages`. -/
def getPackages (fs : FileSystem) (dir : String) : PkgMap × Option GoError :=
  let r := fs.ParseDir dir
  match r.2 with
  | some err => ([], some err)
  | none => walk fs r.1 (fs.WalkDir dir)

/-- The loop of `newParser` over the included directories; the state is the
package map and the logger. -/
def collectPackages (fs : FileSystem) (pkgs : PkgMap) (logger : List LogEntry) :
    List String → PkgMap × List LogEntry
  | [] => (pkgs, logger)
  | dir :: dirs =>
    if errorsIs (fs.Stat dir) Sentinel.ErrNotExist then
      collectPackages fs pkgs logger dirs
    else
      let r := getPackages fs dir
      match r.2 with
      | some err => collectPackages fs pkgs (logger ++ [LogEntry.Info err.msg]) dirs
      | none => collectPackages fs (addMissing pkgs r.1) logger dirs

/-- The function `newParser`. -/
def newParser (fs : FileSystem) (logger : List LogEntry) (dirs : List String) : parser :=
  let r := collectPackages fs [] logger dirs
  { Spec := { Version := slothVersion, Service := "", Labels := [], SLOs := [] }
    GeneralInfoSource := defaultSourceFile
    IncludedDirs := dirs
    ApplicationPackages := r.1
    Logger := r.2 }

/-! ## A sample grammar

The claims below hold for every grammar.  Concrete runs need one; this is a
small line-oriented grammar with the outcomes that the specification names. -/

/-- The words of a line, split at white space. -/
def wordsAux (cur : List Char) : List Char → List (List Char)
  | [] => if cur.isEmpty then [] else [cur.reverse]
  | c :: cs =>
    if isSpace c then
      (if cur.isEmpty then wordsAux [] cs else cur.reverse :: wordsAux [] cs)
    else wordsAux (c :: cur) cs

/-- The lines of a text, split at the newline character. -/
def linesAux (cur : List Char) : List Char → List (List Char)
  | [] => [cur.reverse]
  | c :: cs => if c = Char.ofNat 10 then cur.reverse :: linesAux [] cs else linesAux (c :: cur) cs

/-- The lines of a block, each as its list of words. -/
def tokenLines (text : String) : List (List String) :=
  (linesAux [] text.data).map (fun l => (wordsAux [] l).map String.mk)

/-- The word that follows the first occurrence of `key` in a line. -/
def valueOf (key : String) : List String → Option String
  | [] => none
  | k :: rest =>
    match rest with
    | [] => none
    | v :: _ => if k = key then some v else valueOf key rest

/-- The `key: value` pairs of a `labels:` section. -/
def labelPairs : List String → List (String × String)
  | [] => []
  | [_] => []
  | k :: v :: rest => (String.mk k.data.dropLast, v) :: labelPairs rest

/-- A decimal number written with digits only. -/
def parseNat (s : String) : Option Nat :=
  if s.data.isEmpty then none
  else s.data.foldl
    (fun acc c => acc.bind (fun n => if c.isDigit then some (10 * n + (c.toNat - 48)) else none))
    (some 0)

def errNotADirective : GoError :=
  { msg := "no directive found in the source", chain := [Sentinel.ErrParseSource] }

def errMissingRequiredField (field : String) : GoError :=
  { msg := "missing required field " ++ field, chain := [] }

def errOutOfRangeValue : GoError :=
  { msg := "objective out of range", chain := [] }

def zeroSpec : Spec := { Version := "", Service := "", Labels := [], SLOs := [] }

/-- Modelled from the spec: the function `grammar.EvalService` is not among the
sources.  A service directive is a line whose first word is the marker
`service`, followed by `key: value` pairs; `name:` is mandatory, `version:` has a
default, `labels:` opens a section of further pairs, other keys are ignored.  A
block without such a line is not a directive. -/
def sampleEvalService (text : String) : Spec × Option GoError :=
  match (tokenLines text).find? (fun l => l.head? = some "service") with
  | none => (zeroSpec, some errNotADirective)
  | some l =>
    let fields := l.takeWhile (fun w => w ≠ "labels:")
    let labels := labelPairs ((l.dropWhile (fun w => w ≠ "labels:")).drop 1)
    match valueOf "name:" fields with
    | none => (zeroSpec, some (errMissingRequiredField "name"))
    | some name =>
      ({ Version := (valueOf "version:" fields).getD slothVersion
         Service := name, Labels := labels, SLOs := [] }, none)

/-- One entry of an SLO group. -/
def sampleEntry (l : List String) : Except GoError SLO :=
  match valueOf "name:" l with
  | none => Except.error (errMissingRequiredField "name")
  | some name =>
    match valueOf "objective:" l with
    | none => Except.error (errMissingRequiredField "objective")
    | some o =>
      match parseNat o with
      | none => Except.error errOutOfRangeValue
      | some n =>
        if 0 < n ∧ n ≤ 100 then
          Except.ok
            { Name := name, Description := (valueOf "description:" l).getD "", Objective := 1000 * n }
        else Except.error errOutOfRangeValue

/-- The entries of a group, up to the first malformed one. -/
def sampleEntries : List (List String) → List SLO × Option GoError
  | [] => ([], none)
  | l :: ls =>
    match sampleEntry l with
    | Except.error e => ([], some e)
    | Except.ok slo => (slo :: (sampleEntries ls).1, (sampleEntries ls).2)

/-- Modelled from the spec: the function `grammar.Eval` is not among the
sources.  An SLO group is made of the lines whose first word is the marker
`slo`, one entry a line; `name:` and `objective:` are required and the objective
lies in `(0, 100]`.  A malformed entry fails the group, and the entries read
before it come back next to the error.  A block without such a line is not a
directive. -/
def sampleEval (text : String) : List SLO × Option GoError :=
  match (tokenLines text).filter (fun l => l.head? = some "slo") with
  | [] => ([], some errNotADirective)
  | ls => sampleEntries ls

def sampleGrammar : Grammar := { EvalService := sampleEvalService, Eval := sampleEval }

/-! ## Closed forms of the two passes -/

/-- The result of the service grammar on a block, as the parser calls it. -/
def serviceResult (g : Grammar) (c : CommentGroup) : Spec × Option GoError :=
  g.EvalService (trimSpace c.Text)

/-- The result of the SLO grammar on a block, as the parser calls it. -/
def sloResult (g : Grammar) (c : CommentGroup) : List SLO × Option GoError :=
  g.Eval (trimSpace c.Text)

/-- A real parse failure: a non-nil error that does not match
`grammar.ErrParseSource`. -/
def realFailure (err : Option GoError) : Bool :=
  err.isSome && !errorsIs err Sentinel.ErrParseSource

/-- The entry that a pass writes to the logger for a grammar error, if any. -/
def errorEntry (err : Option GoError) : Option LogEntry :=
  if errorsIs err Sentinel.ErrParseSource then none
  else err.map (fun e => LogEntry.Error e "")

/-- The value returned by the service grammar for the last block of the list on
which it returned no error. -/
def serviceWinner (g : Grammar) (cs : List CommentGroup) : Option Spec :=
  ((cs.filter (fun c => (serviceResult g c).2.isNone)).getLast?).map
    (fun c => (serviceResult g c).1)

/-- Overwrite `Service`, `Version` and `Labels` with those of a declaration. -/
def applyService (s : Spec) : Option Spec → Spec
  | none => s
  | some app => { s with Service := app.Service, Version := app.Version, Labels := app.Labels }

/-- The entries returned by the SLO grammar for the blocks on which it returned
no error, in block order. -/
def sloEntries (g : Grammar) (cs : List CommentGroup) : List SLO :=
  (cs.filter (fun c => (sloResult g c).2.isNone)).flatMap (fun c => (sloResult g c).1)

/-- The files in the order in which `Parse` visits them. -/
def visitedFiles (pkgs : PkgMap) : List (String × File) :=
  pkgs.flatMap (fun pkg => pkg.2.Files)

/-- The comment blocks of a list of files, file after file. -/
def allComments (files : List (String × File)) : List CommentGroup :=
  files.flatMap (fun f => f.2.Comments)

/-- The log entries written while one file is processed: first those of the
service pass, then those of the SLO pass. -/
def fileLog (g : Grammar) (f : File) : List LogEntry :=
  f.Comments.filterMap (fun c => errorEntry (serviceResult g c).2)
    ++ f.Comments.filterMap (fun c => errorEntry (sloResult g c).2)

/-- The specification after the service pass and the SLO pass over the blocks
`cs`, starting from `s`. -/
def foldedSpec (g : Grammar) (s : Spec) (cs : List CommentGroup) : Spec :=
  { applyService s (serviceWinner g cs) with SLOs := s.SLOs ++ sloEntries g cs }

/-- Following the specification's words (section 4.4, steps 1 and 2): one block
goes through the service grammar, which on success overwrites
`Service/Version/Labels`, and then through the SLO grammar, which on success
appends every entry of the group. -/
def applyDirective (g : Grammar) (s : Spec) (c : CommentGroup) : Spec :=
  let s1 :=
    match g.EvalService (trimSpace c.Text) with
    | (app, none) => { s with Service := app.Service, Version := app.Version, Labels := app.Labels }
    | (_, some _) => s
  match g.Eval (trimSpace c.Text) with
  | (slos, none) => { s1 with SLOs := s1.SLOs ++ slos }
  | (_, some _) => s1

/-- Following the specification's words (section 9):
`Specification = fold(comment blocks, initial spec, applyDirective)`. -/
def specFold (g : Grammar) (s : Spec) (cs : List CommentGroup) : Spec :=
  cs.foldl (applyDirective g) s

/-- The packages that `getPackages` meets in the tree of `dir`, in the order in
which it meets them: those of `dir` itself, then those of every directory that
the walk visits. -/
def dirFound (fs : FileSystem) (dir : String) : PkgMap :=
  (fs.ParseDir dir).1 ++
    ((fs.WalkDir dir).filter (fun e => e.isDir)).flatMap (fun e => (fs.ParseDir e.path).1)

/-- An included directory that `newParser` reads: it exists and `getPackages`
returns no error for it. -/
def readable (fs : FileSystem) (dir : String) : Bool :=
  !errorsIs (fs.Stat dir) Sentinel.ErrNotExist && (getPackages fs dir).2.isNone

/-- The packages met in the trees of the directories that `newParser` reads, in
directory order. -/
def treeFound (fs : FileSystem) (dirs : List String) : PkgMap :=
  (dirs.filter (readable fs)).flatMap (dirFound fs)

/-! ## Sample data -/

/-- A parser whose specification already holds a service and one SLO. -/
def seededParser : parser :=
  { Spec := { Version := slothVersion, Service := "billing", Labels := [("team", "core")]
              SLOs := [{ Name := "latency", Description := "", Objective := 95000 }] }
    GeneralInfoSource := defaultSourceFile
    IncludedDirs := []
    ApplicationPackages := []
    Logger := [] }

/-- Two ordinary documentation comments. -/
def plainBlocks : List CommentGroup :=
  [{ Text := "Package main is the entry point.\n" }, { Text := "TODO: tidy up\n" }]

/-- A block with a service directive that lacks its name and a valid SLO group. -/
def mixedBlock : CommentGroup :=
  { Text := "service version: 2\nslo name: availability objective: 99\n" }

/-- A block on which both grammars fail: the service directive lacks its name
and the second SLO entry has an objective out of range. -/
def brokenBlock : CommentGroup :=
  { Text := "service version: 2\nslo name: availability objective: 99\nslo name: latency objective: 0\n" }

/-- A block with a valid service directive and a valid SLO entry. -/
def apiBlock : CommentGroup :=
  { Text := "service name: api version: 1.2\nslo name: api-availability objective: 99\n" }

/-- Another block with a valid service directive and a valid SLO entry. -/
def workerBlock : CommentGroup :=
  { Text := "service name: worker\nslo name: worker-latency objective: 95\n" }

def apiPkg : Package := { Files := [("api/main.go", { Comments := [apiBlock] })] }

def workerPkg : Package := { Files := [("worker/main.go", { Comments := [workerBlock] })] }

def errNoSuchDir : GoError :=
  { msg := "no such file or directory", chain := [Sentinel.ErrNotExist] }

def errPermission : GoError := { msg := "permission denied", chain := [] }

/-- Two directories, `api` and `worker`, each holding a package named `main`. -/
def twoMainsFS : FileSystem :=
  { Stat := fun d => if d = "api" ∨ d = "worker" then none else some errNoSuchDir
    ParseDir := fun d =>
      if d = "api" then ([("main", apiPkg)], none)
      else if d = "worker" then ([("main", workerPkg)], none)
      else ([], some errNoSuchDir)
    WalkDir := fun d =>
      [{ path := d, isDir := true, err := none },
       { path := d ++ "/main.go", isDir := false, err := none }] }

/-- A directory `svc` that exists and cannot be read, next to a directory `api`
that can. -/
def brokenFS : FileSystem :=
  { Stat := fun d => if d = "api" ∨ d = "svc" then none else some errNoSuchDir
    ParseDir := fun d =>
      if d = "api" then ([("api", apiPkg)], none)
      else if d = "svc" then ([], some errPermission)
      else ([], some errNoSuchDir)
    WalkDir := fun d => [{ path := d, isDir := true, err := none }] }

/-- A parser over the packages `api` and `worker`, visited in that order. -/
def apiFirst : parser :=
  { Spec := { Version := slothVersion, Service := "", Labels := [], SLOs := [] }
    GeneralInfoSource := defaultSourceFile
    IncludedDirs := ["."]
    ApplicationPackages := [("api", apiPkg), ("worker", workerPkg)]
    Logger := [] }

/-- The same parser with the two packages visited in the other order. -/
def workerFirst : parser :=
  { apiFirst with ApplicationPackages := [("worker", workerPkg), ("api", apiPkg)] }

/-- A block with a valid service directive and an SLO entry whose objective is
out of range. -/
def serviceOnlyBlock : CommentGroup :=
  { Text := "service name: cart version: 3\nslo name: latency objective: 0\n" }

/-! ## Lemmas -/

theorem errorsIs_none (t : Sentinel) : errorsIs none t = false := rfl

theorem errorEntry_none : errorEntry none = none := rfl

theorem errorEntry_of_is {err : Option GoError}
    (h : errorsIs err Sentinel.ErrParseSource = true) : errorEntry err = none := by
  simp [errorEntry, h]

theorem errorEntry_of_not {e : GoError}
    (h : errorsIs (some e) Sentinel.ErrParseSource = false) :
    errorEntry (some e) = some (LogEntry.Error e "") := by
  simp [errorEntry, h]

theorem foldl_snoc_eq_append {α : Type} (xs ys : List α) :
    xs.foldl (fun acc x => acc ++ [x]) ys = ys ++ xs := by
  induction xs generalizing ys with
  | nil => simp
  | cons x xs ih => simp [ih]

theorem serviceWinner_nil (g : Grammar) : serviceWinner g [] = none := rfl

theorem serviceWinner_cons_ok (g : Grammar) (c : CommentGroup) (cs : List CommentGroup)
    (h : (serviceResult g c).2 = none) :
    serviceWinner g (c :: cs) = some ((serviceWinner g cs).getD (serviceResult g c).1) := by
  unfold serviceWinner
  rw [List.filter_cons, if_pos (by simp [h]), List.getLast?_cons]
  cases (List.filter (fun c => (serviceResult g c).2.isNone) cs).getLast? <;> rfl

theorem serviceWinner_cons_skip (g : Grammar) (c : CommentGroup) (cs : List CommentGroup)
    (h : (serviceResult g c).2 ≠ none) :
    serviceWinner g (c :: cs) = serviceWinner g cs := by
  unfold serviceWinner
  rw [List.filter_cons, if_neg]
  cases hr : (serviceResult g c).2 with
  | none => exact absurd hr h
  | some e => simp

theorem sloEntries_nil (g : Grammar) : sloEntries g [] = [] := rfl

theorem sloEntries_cons_ok (g : Grammar) (c : CommentGroup) (cs : List CommentGroup)
    (h : (sloResult g c).2 = none) :
    sloEntries g (c :: cs) = (sloResult g c).1 ++ sloEntries g cs := by
  unfold sloEntries
  rw [List.filter_cons, if_pos (by simp [h])]
  simp

theorem sloEntries_cons_skip (g : Grammar) (c : CommentGroup) (cs : List CommentGroup)
    (h : (sloResult g c).2 ≠ none) :
    sloEntries g (c :: cs) = sloEntries g cs := by
  unfold sloEntries
  rw [List.filter_cons, if_neg]
  cases hr : (sloResult g c).2 with
  | none => exact absurd hr h
  | some e => simp

theorem applyService_getD (s app : Spec) (w : Option Spec) :
    applyService { s with Service := app.Service, Version := app.Version, Labels := app.Labels } w
      = applyService s (some (w.getD app)) := by
  cases w <;> rfl

/-- Closed form of `parseServiceComments`: the last successful block supplies
the service fields, the failing blocks supply the log, and the error is nil. -/
theorem parseServiceComments_closed (g : Grammar) :
    ∀ (cs : List CommentGroup) (p : parser),
      parseServiceComments g p cs =
        ({ p with Spec := applyService p.Spec (serviceWinner g cs)
                  Logger := p.Logger ++ cs.filterMap (fun c => errorEntry (serviceResult g c).2) },
          none)
  | [], p => by simp [parseServiceComments, serviceWinner_nil, applyService]
  | c :: cs, p => by
    rw [parseServiceComments]
    by_cases h : errorsIs (g.EvalService (trimSpace c.Text)).2 Sentinel.ErrParseSource = true
    · have hne : (serviceResult g c).2 ≠ none := by
        intro h0
        rw [serviceResult] at h0
        rw [h0] at h
        exact absurd h (by decide)
      simp only [h, if_true]
      rw [parseServiceComments_closed g cs p, serviceWinner_cons_skip g c cs hne,
        List.filterMap_cons, serviceResult, errorEntry_of_is h]
    · have h1 : errorsIs (g.EvalService (trimSpace c.Text)).2 Sentinel.ErrParseSource = false := by
        simpa using h
      simp only [h1, Bool.false_eq_true, if_false]
      cases hr : (g.EvalService (trimSpace c.Text)).2 with
      | some e =>
        have hne : (serviceResult g c).2 ≠ none := by simp [serviceResult, hr]
        rw [hr] at h1
        simp only []
        rw [parseServiceComments_closed g cs _, serviceWinner_cons_skip g c cs hne,
          List.filterMap_cons, serviceResult, hr, errorEntry_of_not h1]
        simp
      | none =>
        have hok : (serviceResult g c).2 = none := by simp [serviceResult, hr]
        simp only []
        rw [parseServiceComments_closed g cs _, serviceWinner_cons_ok g c cs hok,
          List.filterMap_cons, serviceResult, hr, errorEntry_none]
        simp only [applyService_getD]

/-- Closed form of `parseSLOsComments`: the successful blocks supply their
entries in order, the failing blocks supply the log, and the error is nil. -/
theorem parseSLOsComments_closed (g : Grammar) :
    ∀ (cs : List CommentGroup) (p : parser),
      parseSLOsComments g p cs =
        ({ p with Spec := { p.Spec with SLOs := p.Spec.SLOs ++ sloEntries g cs }
                  Logger := p.Logger ++ cs.filterMap (fun c => errorEntry (sloResult g c).2) },
          none)
  | [], p => by simp [parseSLOsComments, sloEntries_nil]
  | c :: cs, p => by
    rw [parseSLOsComments]
    by_cases h : errorsIs (g.Eval (trimSpace c.Text)).2 Sentinel.ErrParseSource = true
    · have hne : (sloResult g c).2 ≠ none := by
        intro h0
        rw [sloResult] at h0
        rw [h0] at h
        exact absurd h (by decide)
      simp only [h, if_true]
      rw [parseSLOsComments_closed g cs p, sloEntries_cons_skip g c cs hne,
        List.filterMap_cons, sloResult, errorEntry_of_is h]
    · have h1 : errorsIs (g.Eval (trimSpace c.Text)).2 Sentinel.ErrParseSource = false := by
        simpa using h
      simp only [h1, Bool.false_eq_true, if_false]
      cases hr : (g.Eval (trimSpace c.Text)).2 with
      | some e =>
        have hne : (sloResult g c).2 ≠ none := by simp [sloResult, hr]
        rw [hr] at h1
        simp only []
        rw [parseSLOsComments_closed g cs _, sloEntries_cons_skip g c cs hne,
          List.filterMap_cons, sloResult, hr, errorEntry_of_not h1]
        simp
      | none =>
        have hok : (sloResult g c).2 = none := by simp [sloResult, hr]
        simp only []
        rw [parseSLOsComments_closed g cs _, sloEntries_cons_ok g c cs hok,
          List.filterMap_cons, sloResult, hr, errorEntry_none]
        simp [foldl_snoc_eq_append, sloResult]

/-! ## Closed form of `Parse` -/

theorem applyService_SLOs (s : Spec) (w : Option Spec) : (applyService s w).SLOs = s.SLOs := by
  cases w <;> rfl

theorem applyService_or (s : Spec) (w1 w2 : Option Spec) :
    applyService (applyService s w1) w2 = applyService s (w2.or w1) := by
  cases w1 <;> cases w2 <;> rfl

theorem applyService_with_SLOs (s : Spec) (w : Option Spec) (l : List SLO) :
    applyService { s with SLOs := l } w = { applyService s w with SLOs := l } := by
  cases w <;> rfl

theorem serviceWinner_append (g : Grammar) (a b : List CommentGroup) :
    serviceWinner g (a ++ b) = (serviceWinner g b).or (serviceWinner g a) := by
  unfold serviceWinner
  rw [List.filter_append, List.getLast?_append]
  cases (List.filter (fun c => (serviceResult g c).2.isNone) b).getLast? <;> simp

theorem sloEntries_append (g : Grammar) (a b : List CommentGroup) :
    sloEntries g (a ++ b) = sloEntries g a ++ sloEntries g b := by
  simp [sloEntries, List.filter_append, List.flatMap_append]

theorem foldedSpec_append (g : Grammar) (s : Spec) (a b : List CommentGroup) :
    foldedSpec g (foldedSpec g s a) b = foldedSpec g s (a ++ b) := by
  simp [foldedSpec, applyService_with_SLOs, applyService_or, serviceWinner_append,
    sloEntries_append, applyService_SLOs]

theorem foldedSpec_nil (g : Grammar) (s : Spec) : foldedSpec g s [] = s := by
  simp [foldedSpec, serviceWinner_nil, sloEntries_nil, applyService]

/-- The two passes over one file, as `Parse` runs them. -/
theorem twoPasses_closed (g : Grammar) (p : parser) (cs : List CommentGroup) :
    parseSLOsComments g (parseServiceComments g p cs).1 cs =
      ({ p with Spec := foldedSpec g p.Spec cs
                Logger := p.Logger ++ fileLog g { Comments := cs } }, none) := by
  rw [parseServiceComments_closed, parseSLOsComments_closed]
  simp [foldedSpec, fileLog, applyService_SLOs]

theorem parseFiles_cons (g : Grammar) (p : parser) (n : String) (file : File)
    (files : List (String × File)) :
    parseFiles g p ((n, file) :: files) =
      parseFiles g
        (parseSLOsComments g (parseServiceComments g p file.Comments).1 file.Comments).1 files := by
  rw [parseFiles]
  simp only [parseServiceComments_closed g file.Comments p]
  simp only [parseSLOsComments_closed g file.Comments]

/-- Closed form of the loop over the files of a package. -/
theorem parseFiles_closed (g : Grammar) :
    ∀ (files : List (String × File)) (p : parser),
      parseFiles g p files =
        { p with Spec := foldedSpec g p.Spec (allComments files)
                 Logger := p.Logger ++ files.flatMap (fun f => fileLog g f.2) }
  | [], p => by simp [parseFiles, allComments, foldedSpec_nil]
  | (n, file) :: files, p => by
    rw [parseFiles_cons, twoPasses_closed, parseFiles_closed g files]
    have h : allComments ((n, file) :: files) = file.Comments ++ allComments files := by
      simp [allComments]
    simp only [foldedSpec_append, h]
    simp [fileLog]

/-- Closed form of the loop over the packages. -/
theorem parsePackages_closed (g : Grammar) :
    ∀ (pkgs : PkgMap) (p : parser),
      parsePackages g p pkgs =
        { p with Spec := foldedSpec g p.Spec (allComments (visitedFiles pkgs))
                 Logger := p.Logger ++ (visitedFiles pkgs).flatMap (fun f => fileLog g f.2) }
  | [], p => by simp [parsePackages, visitedFiles, allComments, foldedSpec_nil]
  | (n, pkg) :: pkgs, p => by
    rw [parsePackages, parsePackages_closed g pkgs, parseFiles_closed g pkg.Files p]
    have h : allComments (visitedFiles ((n, pkg) :: pkgs))
        = allComments pkg.Files ++ allComments (visitedFiles pkgs) := by
      simp [allComments, visitedFiles, List.flatMap_append]
    simp only [foldedSpec_append, h]
    simp [visitedFiles, List.flatMap_append]

theorem Parse_spec (g : Grammar) (p : parser) :
    (Parse g p).spec = foldedSpec g p.Spec (allComments (visitedFiles p.ApplicationPackages)) := by
  simp [Parse, parsePackages_closed]

theorem applyDirective_eq (g : Grammar) (s : Spec) (c : CommentGroup) :
    applyDirective g s c = foldedSpec g s [c] := by
  unfold applyDirective foldedSpec
  cases h1 : (g.EvalService (trimSpace c.Text)).2 with
  | none =>
    have w : serviceWinner g [c] = some (g.EvalService (trimSpace c.Text)).1 := by
      rw [serviceWinner_cons_ok g c [] (by simp [serviceResult, h1])]; rfl
    cases h2 : (g.Eval (trimSpace c.Text)).2 with
    | none =>
      have e : sloEntries g [c] = (g.Eval (trimSpace c.Text)).1 := by
        rw [sloEntries_cons_ok g c [] (by simp [sloResult, h2])]; simp [sloEntries_nil, sloResult]
      rw [w, e]
      rcases hs : g.EvalService (trimSpace c.Text) with ⟨app, e1⟩
      rcases hl : g.Eval (trimSpace c.Text) with ⟨slos, e2⟩
      rw [hs] at h1; rw [hl] at h2
      simp only [] at h1 h2
      subst h1; subst h2
      simp [applyService]
    | some err =>
      have e : sloEntries g [c] = [] := by
        rw [sloEntries_cons_skip g c [] (by simp [sloResult, h2])]; rfl
      rw [w, e]
      rcases hs : g.EvalService (trimSpace c.Text) with ⟨app, e1⟩
      rcases hl : g.Eval (trimSpace c.Text) with ⟨slos, e2⟩
      rw [hs] at h1; rw [hl] at h2
      simp only [] at h1 h2
      subst h1; subst h2
      simp [applyService]
  | some err1 =>
    have w : serviceWinner g [c] = none := by
      rw [serviceWinner_cons_skip g c [] (by simp [serviceResult, h1])]; rfl
    cases h2 : (g.Eval (trimSpace c.Text)).2 with
    | none =>
      have e : sloEntries g [c] = (g.Eval (trimSpace c.Text)).1 := by
        rw [sloEntries_cons_ok g c [] (by simp [sloResult, h2])]; simp [sloEntries_nil, sloResult]
      rw [w, e]
      rcases hs : g.EvalService (trimSpace c.Text) with ⟨app, e1⟩
      rcases hl : g.Eval (trimSpace c.Text) with ⟨slos, e2⟩
      rw [hs] at h1; rw [hl] at h2
      simp only [] at h1 h2
      subst h1; subst h2
      simp [applyService]
    | some err =>
      have e : sloEntries g [c] = [] := by
        rw [sloEntries_cons_skip g c [] (by simp [sloResult, h2])]; rfl
      rw [w, e]
      rcases hs : g.EvalService (trimSpace c.Text) with ⟨app, e1⟩
      rcases hl : g.Eval (trimSpace c.Text) with ⟨slos, e2⟩
      rw [hs] at h1; rw [hl] at h2
      simp only [] at h1 h2
      subst h1; subst h2
      simp [applyService]

theorem specFold_eq (g : Grammar) :
    ∀ (cs : List CommentGroup) (s : Spec), specFold g s cs = foldedSpec g s cs
  | [], s => by simp [specFold, foldedSpec_nil]
  | c :: cs, s => by
    have ih := specFold_eq g cs (applyDirective g s c)
    unfold specFold at ih ⊢
    rw [List.foldl_cons, ih, applyDirective_eq, foldedSpec_append]
    rfl

theorem serviceWinner_eq_none_of_errors (g : Grammar) (cs : List CommentGroup)
    (h : ∀ c ∈ cs, (serviceResult g c).2 ≠ none) : serviceWinner g cs = none := by
  induction cs with
  | nil => rfl
  | cons c cs ih =>
    rw [serviceWinner_cons_skip g c cs (h c (List.mem_cons_self _ _))]
    exact ih (fun d hd => h d (List.mem_cons_of_mem _ hd))

theorem sloEntries_eq_nil_of_errors (g : Grammar) (cs : List CommentGroup)
    (h : ∀ c ∈ cs, (sloResult g c).2 ≠ none) : sloEntries g cs = [] := by
  induction cs with
  | nil => rfl
  | cons c cs ih =>
    rw [sloEntries_cons_skip g c cs (h c (List.mem_cons_self _ _))]
    exact ih (fun d hd => h d (List.mem_cons_of_mem _ hd))

theorem ne_none_of_errorsIs {err : Option GoError} {t : Sentinel}
    (h : errorsIs err t = true) : err ≠ none := by
  intro h0
  rw [h0] at h
  simp [errorsIs] at h

/-! ## The claims -/

/-- C1. Service last-write-wins: after `parseServiceComments` the fields
`Service`, `Version` and `Labels` are those returned by `grammar.EvalService` for
the last block of the list on which it returned no error, with nothing kept from
an earlier successful block; when it succeeds on no block the three fields keep
their initial values. -/
theorem service_last_write_wins (g : Grammar) (p : parser) (cs : List CommentGroup) :
    match (cs.filter (fun c => (g.EvalService (trimSpace c.Text)).2.isNone)).getLast? with
    | none =>
      (parseServiceComments g p cs).1.Spec.Service = p.Spec.Service ∧
      (parseServiceComments g p cs).1.Spec.Version = p.Spec.Version ∧
      (parseServiceComments g p cs).1.Spec.Labels = p.Spec.Labels
    | some c =>
      (parseServiceComments g p cs).1.Spec.Service = (g.EvalService (trimSpace c.Text)).1.Service ∧
      (parseServiceComments g p cs).1.Spec.Version = (g.EvalService (trimSpace c.Text)).1.Version ∧
      (parseServiceComments g p cs).1.Spec.Labels = (g.EvalService (trimSpace c.Text)).1.Labels := by
  rw [parseServiceComments_closed]
  have hw : serviceWinner g cs =
      ((cs.filter (fun c => (g.EvalService (trimSpace c.Text)).2.isNone)).getLast?).map
        (fun c => (g.EvalService (trimSpace c.Text)).1) := rfl
  simp only [hw]
  cases (cs.filter (fun c => (g.EvalService (trimSpace c.Text)).2.isNone)).getLast? with
  | none => simp [applyService]
  | some c => simp [applyService]

/-- C2. SLO append order: after `parseSLOsComments` the SLOs are the initial ones
followed by the entries returned by `grammar.Eval` for the blocks on which it
returned no error, in block order and in produced order within a block.  The
length grows by the total number of those entries and the initial SLOs stay as a
prefix. -/
theorem slo_append_order (g : Grammar) (p : parser) (cs : List CommentGroup) :
    (parseSLOsComments g p cs).1.Spec.SLOs =
        p.Spec.SLOs ++
          (cs.filter (fun c => (g.Eval (trimSpace c.Text)).2.isNone)).flatMap
            (fun c => (g.Eval (trimSpace c.Text)).1) ∧
      (parseSLOsComments g p cs).1.Spec.SLOs.length =
        p.Spec.SLOs.length +
          ((cs.filter (fun c => (g.Eval (trimSpace c.Text)).2.isNone)).map
            (fun c => (g.Eval (trimSpace c.Text)).1.length)).sum ∧
      p.Spec.SLOs <+: (parseSLOsComments g p cs).1.Spec.SLOs := by
  rw [parseSLOsComments_closed]
  have he : sloEntries g cs =
      (cs.filter (fun c => (g.Eval (trimSpace c.Text)).2.isNone)).flatMap
        (fun c => (g.Eval (trimSpace c.Text)).1) := rfl
  rw [he]
  refine ⟨rfl, ?_, List.prefix_append _ _⟩
  simp [List.length_flatMap, Function.comp_def]

/-- C3. `Parse` never fails on account of annotations: whatever the grammar
returns on each block, `Parse` returns a nil error together with the
specification assembled over all visited files, and `parseServiceComments` and
`parseSLOsComments` return nil. -/
theorem parse_never_fails (g : Grammar) (p : parser) (cs : List CommentGroup) :
    (Parse g p).err = none ∧
      (Parse g p).spec = (parsePackages g p p.ApplicationPackages).Spec ∧
      (Parse g p).spec =
        { applyService p.Spec (serviceWinner g (allComments (visitedFiles p.ApplicationPackages)))
            with SLOs := p.Spec.SLOs ++
              sloEntries g (allComments (visitedFiles p.ApplicationPackages)) } ∧
      (parseServiceComments g p cs).2 = none ∧
      (parseSLOsComments g p cs).2 = none := by
  refine ⟨rfl, rfl, ?_, ?_, ?_⟩
  · rw [Parse_spec]; rfl
  · rw [parseServiceComments_closed]
  · rw [parseSLOsComments_closed]

/-- C4. No marker, no change: when both grammars return an error matching
`grammar.ErrParseSource` on every block, the specification after
`parseServiceComments` followed by `parseSLOsComments` equals the initial one. -/
theorem no_marker_no_change (g : Grammar) (p : parser) (cs : List CommentGroup)
    (h : ∀ c ∈ cs,
      errorsIs (g.EvalService (trimSpace c.Text)).2 Sentinel.ErrParseSource = true ∧
      errorsIs (g.Eval (trimSpace c.Text)).2 Sentinel.ErrParseSource = true) :
    (parseSLOsComments g (parseServiceComments g p cs).1 cs).1.Spec = p.Spec := by
  rw [twoPasses_closed]
  have h1 : serviceWinner g cs = none :=
    serviceWinner_eq_none_of_errors g cs (fun c hc => ne_none_of_errorsIs (h c hc).1)
  have h2 : sloEntries g cs = [] :=
    sloEntries_eq_nil_of_errors g cs (fun c hc => ne_none_of_errorsIs (h c hc).2)
  simp [foldedSpec, h1, h2, applyService]

theorem no_marker_no_change_witness :
    (∀ c ∈ plainBlocks,
      errorsIs (sampleGrammar.EvalService (trimSpace c.Text)).2 Sentinel.ErrParseSource = true ∧
      errorsIs (sampleGrammar.Eval (trimSpace c.Text)).2 Sentinel.ErrParseSource = true) ∧
    (parseSLOsComments sampleGrammar
      (parseServiceComments sampleGrammar seededParser plainBlocks).1 plainBlocks).1.Spec
        = seededParser.Spec :=
  ⟨by decide, no_marker_no_change sampleGrammar seededParser plainBlocks (by decide)⟩

/-- C9. Failures are logged, skips are silent: `parseServiceComments` and
`parseSLOsComments` each append to the logger one `Logger.Error` entry, in block
order, for every block whose grammar error is not nil and does not match
`ErrParseSource`, and nothing for the other blocks. -/
theorem failures_logged_skips_silent (g : Grammar) (p : parser) (cs : List CommentGroup) :
    (parseServiceComments g p cs).1.Logger =
        p.Logger ++ cs.filterMap (fun c =>
          match (g.EvalService (trimSpace c.Text)).2 with
          | none => none
          | some err =>
            if errorsIs (some err) Sentinel.ErrParseSource then none
            else some (LogEntry.Error err "")) ∧
      (parseSLOsComments g p cs).1.Logger =
        p.Logger ++ cs.filterMap (fun c =>
          match (g.Eval (trimSpace c.Text)).2 with
          | none => none
          | some err =>
            if errorsIs (some err) Sentinel.ErrParseSource then none
            else some (LogEntry.Error err "")) := by
  rw [parseServiceComments_closed, parseSLOsComments_closed]
  have aux : ∀ err : Option GoError, errorEntry err =
      (match err with
        | none => none
        | some err =>
          if errorsIs (some err) Sentinel.ErrParseSource then none
          else some (LogEntry.Error err "")) := by
    intro err
    cases err with
    | none => rfl
    | some e => by_cases hh : errorsIs (some e) Sentinel.ErrParseSource = true <;> simp [errorEntry, hh]
  simp [aux, serviceResult, sloResult]

/-- C10. Two passes equal one fold: running all blocks of a file through
`parseServiceComments` and then all of them through `parseSLOsComments` gives the
same specification as one left fold that applies to each block the service step
and then the SLO step; the same holds for `Parse` over the blocks of all visited
files. -/
theorem two_passes_equal_one_fold (g : Grammar) (p : parser) (cs : List CommentGroup) :
    (parseSLOsComments g (parseServiceComments g p cs).1 cs).1.Spec = specFold g p.Spec cs ∧
      (Parse g p).spec = specFold g p.Spec (allComments (visitedFiles p.ApplicationPackages)) := by
  rw [twoPasses_closed, Parse_spec, specFold_eq, specFold_eq]
  exact ⟨rfl, rfl⟩

/-! ## Claims that the code does not meet as stated -/

theorem ne_none_of_realFailure {err : Option GoError} (h : realFailure err = true) :
    err ≠ none := by
  intro h0
  rw [h0] at h
  simp [realFailure] at h

theorem serviceWinner_remove (g : Grammar) (pre post : List CommentGroup) (b : CommentGroup)
    (h : (serviceResult g b).2 ≠ none) :
    serviceWinner g (pre ++ b :: post) = serviceWinner g (pre ++ post) := by
  rw [serviceWinner_append, serviceWinner_append, serviceWinner_cons_skip g b post h]

theorem sloEntries_remove (g : Grammar) (pre post : List CommentGroup) (b : CommentGroup)
    (h : (sloResult g b).2 ≠ none) :
    sloEntries g (pre ++ b :: post) = sloEntries g (pre ++ post) := by
  rw [sloEntries_append, sloEntries_append, sloEntries_cons_skip g b post h]

/-- C5, as stated, fails: on `mixedBlock` the service grammar returns a real
parse failure and the SLO grammar succeeds, and the block's SLO is appended, so
the specification differs from the one obtained with the block removed. -/
theorem failing_block_counterexample :
    ¬ (∀ (g : Grammar) (p : parser) (pre post : List CommentGroup) (b : CommentGroup),
        (realFailure (g.EvalService (trimSpace b.Text)).2 = true ∨
          realFailure (g.Eval (trimSpace b.Text)).2 = true) →
        (parseSLOsComments g (parseServiceComments g p (pre ++ b :: post)).1
            (pre ++ b :: post)).1.Spec =
          (parseSLOsComments g (parseServiceComments g p (pre ++ post)).1 (pre ++ post)).1.Spec) := by
  intro h
  have h1 := h sampleGrammar seededParser [] [] mixedBlock (Or.inl (by decide))
  revert h1
  decide

/-- C5, amended: a block drops out of the pass whose grammar failed on it, and
the result of the other grammar on the same block is still applied.  If
`grammar.EvalService` returns a real parse failure on a block, `Service`,
`Version` and `Labels` are those obtained with the block removed; if
`grammar.Eval` returns a real parse failure, the SLOs are those obtained with the
block removed, also when entries come back next to the error; if both grammars
return an error, the whole specification is the one obtained with the block
removed.  Whatever the service grammar returned on the block, when
`grammar.Eval` succeeds on it its entries stand in the SLOs between those of the
blocks before and those of the blocks after; whatever the SLO grammar returned
on the block, when `grammar.EvalService` succeeds on it its fields are the
service fields unless a later block succeeds. -/
theorem failing_block_dropped_by_its_pass (g : Grammar) (p : parser)
    (pre post : List CommentGroup) (b : CommentGroup) :
    (realFailure (g.EvalService (trimSpace b.Text)).2 = true →
      (parseSLOsComments g (parseServiceComments g p (pre ++ b :: post)).1
          (pre ++ b :: post)).1.Spec.Service =
        (parseSLOsComments g (parseServiceComments g p (pre ++ post)).1
          (pre ++ post)).1.Spec.Service ∧
      (parseSLOsComments g (parseServiceComments g p (pre ++ b :: post)).1
          (pre ++ b :: post)).1.Spec.Version =
        (parseSLOsComments g (parseServiceComments g p (pre ++ post)).1
          (pre ++ post)).1.Spec.Version ∧
      (parseSLOsComments g (parseServiceComments g p (pre ++ b :: post)).1
          (pre ++ b :: post)).1.Spec.Labels =
        (parseSLOsComments g (parseServiceComments g p (pre ++ post)).1
          (pre ++ post)).1.Spec.Labels) ∧
    (realFailure (g.Eval (trimSpace b.Text)).2 = true →
      (parseSLOsComments g (parseServiceComments g p (pre ++ b :: post)).1
          (pre ++ b :: post)).1.Spec.SLOs =
        (parseSLOsComments g (parseServiceComments g p (pre ++ post)).1
          (pre ++ post)).1.Spec.SLOs) ∧
    ((g.EvalService (trimSpace b.Text)).2 ≠ none → (g.Eval (trimSpace b.Text)).2 ≠ none →
      (parseSLOsComments g (parseServiceComments g p (pre ++ b :: post)).1
          (pre ++ b :: post)).1.Spec =
        (parseSLOsComments g (parseServiceComments g p (pre ++ post)).1 (pre ++ post)).1.Spec) ∧
    ((g.Eval (trimSpace b.Text)).2 = none →
      (parseSLOsComments g (parseServiceComments g p (pre ++ b :: post)).1
          (pre ++ b :: post)).1.Spec.SLOs =
        p.Spec.SLOs ++
          (pre.filter (fun c => (g.Eval (trimSpace c.Text)).2.isNone)).flatMap
            (fun c => (g.Eval (trimSpace c.Text)).1) ++
          (g.Eval (trimSpace b.Text)).1 ++
          (post.filter (fun c => (g.Eval (trimSpace c.Text)).2.isNone)).flatMap
            (fun c => (g.Eval (trimSpace c.Text)).1)) ∧
    ((g.EvalService (trimSpace b.Text)).2 = none →
      match (post.filter (fun c => (g.EvalService (trimSpace c.Text)).2.isNone)).getLast? with
      | none =>
        (parseSLOsComments g (parseServiceComments g p (pre ++ b :: post)).1
            (pre ++ b :: post)).1.Spec.Service = (g.EvalService (trimSpace b.Text)).1.Service ∧
        (parseSLOsComments g (parseServiceComments g p (pre ++ b :: post)).1
            (pre ++ b :: post)).1.Spec.Version = (g.EvalService (trimSpace b.Text)).1.Version ∧
        (parseSLOsComments g (parseServiceComments g p (pre ++ b :: post)).1
            (pre ++ b :: post)).1.Spec.Labels = (g.EvalService (trimSpace b.Text)).1.Labels
      | some c =>
        (parseSLOsComments g (parseServiceComments g p (pre ++ b :: post)).1
            (pre ++ b :: post)).1.Spec.Service = (g.EvalService (trimSpace c.Text)).1.Service ∧
        (parseSLOsComments g (parseServiceComments g p (pre ++ b :: post)).1
            (pre ++ b :: post)).1.Spec.Version = (g.EvalService (trimSpace c.Text)).1.Version ∧
        (parseSLOsComments g (parseServiceComments g p (pre ++ b :: post)).1
            (pre ++ b :: post)).1.Spec.Labels = (g.EvalService (trimSpace c.Text)).1.Labels) := by
  rw [twoPasses_closed, twoPasses_closed]
  refine ⟨fun h => ?_, fun h => ?_, fun h1 h2 => ?_, fun h => ?_, fun h => ?_⟩
  · have hw := serviceWinner_remove g pre post b (ne_none_of_realFailure h)
    simp [foldedSpec, hw]
  · have he := sloEntries_remove g pre post b (ne_none_of_realFailure h)
    simp [foldedSpec, he]
  · have hw := serviceWinner_remove g pre post b h1
    have he := sloEntries_remove g pre post b h2
    simp [foldedSpec, hw, he]
  · have he : sloEntries g (pre ++ b :: post) =
        sloEntries g pre ++ ((g.Eval (trimSpace b.Text)).1 ++ sloEntries g post) := by
      rw [sloEntries_append, sloEntries_cons_ok g b post h]
      rfl
    have hpre : sloEntries g pre =
        (pre.filter (fun c => (g.Eval (trimSpace c.Text)).2.isNone)).flatMap
          (fun c => (g.Eval (trimSpace c.Text)).1) := rfl
    have hpost : sloEntries g post =
        (post.filter (fun c => (g.Eval (trimSpace c.Text)).2.isNone)).flatMap
          (fun c => (g.Eval (trimSpace c.Text)).1) := rfl
    simp only [foldedSpec, he, hpre, hpost, List.append_assoc]
  · have hw : serviceWinner g (pre ++ b :: post) =
        some ((serviceWinner g post).getD (g.EvalService (trimSpace b.Text)).1) := by
      rw [serviceWinner_append, serviceWinner_cons_ok g b post h]
      rfl
    have hpost : serviceWinner g post =
        ((post.filter (fun c => (g.EvalService (trimSpace c.Text)).2.isNone)).getLast?).map
          (fun c => (g.EvalService (trimSpace c.Text)).1) := rfl
    simp only [foldedSpec, hw, hpost]
    cases (post.filter (fun c => (g.EvalService (trimSpace c.Text)).2.isNone)).getLast? with
    | none => simp [applyService]
    | some c => simp [applyService]

theorem failing_block_dropped_by_its_pass_witness :
    realFailure (sampleGrammar.EvalService (trimSpace brokenBlock.Text)).2 = true ∧
    realFailure (sampleGrammar.Eval (trimSpace brokenBlock.Text)).2 = true ∧
    (sampleGrammar.Eval (trimSpace brokenBlock.Text)).1 ≠ [] ∧
    (parseSLOsComments sampleGrammar
        (parseServiceComments sampleGrammar seededParser ([apiBlock] ++ brokenBlock :: [workerBlock])).1
        ([apiBlock] ++ brokenBlock :: [workerBlock])).1.Spec.SLOs =
      (parseSLOsComments sampleGrammar
        (parseServiceComments sampleGrammar seededParser ([apiBlock] ++ [workerBlock])).1
        ([apiBlock] ++ [workerBlock])).1.Spec.SLOs ∧
    (parseSLOsComments sampleGrammar
        (parseServiceComments sampleGrammar seededParser ([apiBlock] ++ brokenBlock :: [workerBlock])).1
        ([apiBlock] ++ brokenBlock :: [workerBlock])).1.Spec =
      (parseSLOsComments sampleGrammar
        (parseServiceComments sampleGrammar seededParser ([apiBlock] ++ [workerBlock])).1
        ([apiBlock] ++ [workerBlock])).1.Spec ∧
    (parseSLOsComments sampleGrammar
        (parseServiceComments sampleGrammar seededParser ([apiBlock] ++ mixedBlock :: [workerBlock])).1
        ([apiBlock] ++ mixedBlock :: [workerBlock])).1.Spec.SLOs =
      [{ Name := "latency", Description := "", Objective := 95000 },
       { Name := "api-availability", Description := "", Objective := 99000 },
       { Name := "availability", Description := "", Objective := 99000 },
       { Name := "worker-latency", Description := "", Objective := 95000 }] ∧
    (parseSLOsComments sampleGrammar
        (parseServiceComments sampleGrammar seededParser ([apiBlock] ++ serviceOnlyBlock :: [])).1
        ([apiBlock] ++ serviceOnlyBlock :: [])).1.Spec.Service = "cart" :=
  ⟨by decide, by decide, by decide,
    (failing_block_dropped_by_its_pass sampleGrammar seededParser [apiBlock] [workerBlock]
      brokenBlock).2.1 (by decide),
    (failing_block_dropped_by_its_pass sampleGrammar seededParser [apiBlock] [workerBlock]
      brokenBlock).2.2.1 (by decide) (by decide),
    ((failing_block_dropped_by_its_pass sampleGrammar seededParser [apiBlock] [workerBlock]
      mixedBlock).2.2.2.1 (by decide)).trans (by decide),
    (((failing_block_dropped_by_its_pass sampleGrammar seededParser [apiBlock] []
      serviceOnlyBlock).2.2.2.2 (by decide)).1).trans (by decide)⟩

/-! ## The adapter -/

theorem collectPackages_cons_missing (fs : FileSystem) (pkgs : PkgMap) (logger : List LogEntry)
    (dir : String) (dirs : List String)
    (h : errorsIs (fs.Stat dir) Sentinel.ErrNotExist = true) :
    collectPackages fs pkgs logger (dir :: dirs) = collectPackages fs pkgs logger dirs := by
  rw [collectPackages]
  simp [h]

theorem collectPackages_cons_error (fs : FileSystem) (pkgs : PkgMap) (logger : List LogEntry)
    (dir : String) (dirs : List String) (err : GoError)
    (h : errorsIs (fs.Stat dir) Sentinel.ErrNotExist = false)
    (he : (getPackages fs dir).2 = some err) :
    collectPackages fs pkgs logger (dir :: dirs) =
      collectPackages fs pkgs (logger ++ [LogEntry.Info err.msg]) dirs := by
  rw [collectPackages]
  simp [h, he]

theorem collectPackages_cons_ok (fs : FileSystem) (pkgs : PkgMap) (logger : List LogEntry)
    (dir : String) (dirs : List String)
    (h : errorsIs (fs.Stat dir) Sentinel.ErrNotExist = false)
    (he : (getPackages fs dir).2 = none) :
    collectPackages fs pkgs logger (dir :: dirs) =
      collectPackages fs (addMissing pkgs (getPackages fs dir).1) logger dirs := by
  rw [collectPackages]
  simp [h, he]

/-- Closed form of the loop of `newParser`. -/
theorem collectPackages_closed (fs : FileSystem) :
    ∀ (dirs : List String) (pkgs : PkgMap) (logger : List LogEntry),
      collectPackages fs pkgs logger dirs =
        ((dirs.filter (fun dir =>
              !errorsIs (fs.Stat dir) Sentinel.ErrNotExist && (getPackages fs dir).2.isNone)).foldl
            (fun acc dir => addMissing acc (getPackages fs dir).1) pkgs,
          logger ++ dirs.filterMap (fun dir =>
            if errorsIs (fs.Stat dir) Sentinel.ErrNotExist then none
            else (getPackages fs dir).2.map (fun err => LogEntry.Info err.msg)))
  | [], pkgs, logger => by simp [collectPackages]
  | dir :: dirs, pkgs, logger => by
    cases hs : errorsIs (fs.Stat dir) Sentinel.ErrNotExist with
    | true =>
      rw [collectPackages_cons_missing fs pkgs logger dir dirs hs,
        collectPackages_closed fs dirs pkgs logger]
      simp [hs]
    | false =>
      cases he : (getPackages fs dir).2 with
      | some err =>
        rw [collectPackages_cons_error fs pkgs logger dir dirs err hs he,
          collectPackages_closed fs dirs pkgs _]
        simp [hs, he]
      | none =>
        rw [collectPackages_cons_ok fs pkgs logger dir dirs hs he,
          collectPackages_closed fs dirs _ logger]
        simp [hs, he]

theorem sloEntries_allComments (g : Grammar) :
    ∀ files : List (String × File),
      sloEntries g (allComments files) = files.flatMap (fun f => sloEntries g f.2.Comments)
  | [] => rfl
  | f :: files => by
    have h : allComments (f :: files) = f.2.Comments ++ allComments files := by
      simp [allComments]
    rw [h, sloEntries_append, sloEntries_allComments g files]
    simp

theorem mem_sloEntries (g : Grammar) (cs : List CommentGroup) (c : CommentGroup) (slo : SLO)
    (hc : c ∈ cs) (hok : (sloResult g c).2 = none) (hs : slo ∈ (sloResult g c).1) :
    slo ∈ sloEntries g cs := by
  unfold sloEntries
  rw [List.mem_flatMap]
  exact ⟨c, List.mem_filter.mpr ⟨hc, by simp [hok]⟩, hs⟩

theorem Parse_SLOs (g : Grammar) (p : parser) :
    (Parse g p).spec.SLOs =
      p.Spec.SLOs ++ (visitedFiles p.ApplicationPackages).flatMap
        (fun f => sloEntries g f.2.Comments) := by
  rw [Parse_spec, ← sloEntries_allComments]
  rfl

theorem addMissing_append :
    ∀ (a b pkgs : PkgMap), addMissing pkgs (a ++ b) = addMissing (addMissing pkgs a) b
  | [], b, pkgs => by simp [addMissing]
  | (n, q) :: a, b, pkgs => by
    rw [List.cons_append, addMissing, addMissing]
    split
    · exact addMissing_append a b pkgs
    · exact addMissing_append a b _

theorem lookup_addMissing :
    ∀ (found pkgs : PkgMap) (n : String),
      (addMissing pkgs found).lookup n = (pkgs.lookup n).or (found.lookup n)
  | [], pkgs, n => by simp [addMissing]
  | (m, q) :: found, pkgs, n => by
    rw [addMissing]
    split
    · rename_i hl
      rw [lookup_addMissing found pkgs n]
      by_cases hk : n = m
      · subst hk
        obtain ⟨v, hv⟩ := Option.isSome_iff_exists.mp hl
        simp [hv]
      · have hb : (n == m) = false := by simpa using hk
        simp [List.lookup_cons, hb]
    · rename_i hl
      have hm : List.lookup m pkgs = none := Option.not_isSome_iff_eq_none.mp hl
      rw [lookup_addMissing found _ n, List.lookup_append]
      by_cases hk : n = m
      · subst hk
        simp [List.lookup_cons, hm]
      · have hb : (n == m) = false := by simpa using hk
        simp [List.lookup_cons, hb]

theorem mem_addMissing :
    ∀ (found pkgs : PkgMap) (n : String) (pkg : Package),
      (n, pkg) ∈ addMissing pkgs found ↔
        (n, pkg) ∈ pkgs ∨ (pkgs.lookup n = none ∧ found.lookup n = some pkg)
  | [], pkgs, n, pkg => by simp [addMissing]
  | (m, q) :: found, pkgs, n, pkg => by
    rw [addMissing]
    split
    · rename_i hl
      rw [mem_addMissing found pkgs n pkg]
      by_cases hk : n = m
      · subst hk
        obtain ⟨v, hv⟩ := Option.isSome_iff_exists.mp hl
        simp [hv]
      · have hb : (n == m) = false := by simpa using hk
        simp only [List.lookup_cons, hb]
    · rename_i hl
      have hm : List.lookup m pkgs = none := Option.not_isSome_iff_eq_none.mp hl
      rw [mem_addMissing found _ n pkg, List.lookup_append]
      by_cases hk : n = m
      · subst hk
        simp only [List.lookup_cons, hm, beq_self_eq_true, Option.none_or, List.mem_append,
          List.mem_singleton, Prod.mk.injEq, true_and]
        constructor
        · rintro (h | h)
          · rcases h with h | h
            · exact Or.inl h
            · exact Or.inr (by rw [h])
          · exact absurd h.1 (by simp)
        · rintro (h | h)
          · exact Or.inl (Or.inl h)
          · exact Or.inl (Or.inr (Option.some.inj h).symm)
      · have hb : (n == m) = false := by simpa using hk
        simp only [List.lookup_cons, hb, List.mem_append, List.mem_singleton, Prod.mk.injEq, hk,
          false_and, or_false, Option.or_none, List.lookup_nil]

theorem addMissing_keys_nodup :
    ∀ (found pkgs : PkgMap), (pkgs.map Prod.fst).Nodup →
      ((addMissing pkgs found).map Prod.fst).Nodup
  | [], pkgs, h => by simpa [addMissing] using h
  | (m, q) :: found, pkgs, h => by
    rw [addMissing]
    split
    · exact addMissing_keys_nodup found pkgs h
    · rename_i hl
      have hm : List.lookup m pkgs = none := Option.not_isSome_iff_eq_none.mp hl
      apply addMissing_keys_nodup found
      rw [List.map_append, List.nodup_append]
      refine ⟨h, by simp, ?_⟩
      intro k hk1 hk2
      have hkm : k = m := by simpa using hk2
      subst hkm
      obtain ⟨x, hx, hxk⟩ := List.mem_map.mp hk1
      have := (List.lookup_eq_none_iff.mp hm) x hx
      simp [hxk] at this

theorem walk_ok (fs : FileSystem) :
    ∀ (es : List WalkEntry) (pkgs : PkgMap), (walk fs pkgs es).2 = none →
      (walk fs pkgs es).1 =
        addMissing pkgs ((es.filter (fun e => e.isDir)).flatMap (fun e => (fs.ParseDir e.path).1))
  | [], pkgs, _ => by simp [walk, addMissing]
  | e :: es, pkgs, h => by
    rw [walk] at h ⊢
    cases hd : e.isDir with
    | false =>
      cases he : e.err with
      | some err => simp [walkFn, hd, he] at h
      | none =>
        simp only [walkFn, hd, he, Bool.false_eq_true, if_false] at h ⊢
        rw [walk_ok fs es pkgs h]
        simp [hd]
    | true =>
      cases hp : (fs.ParseDir e.path).2 with
      | some err => simp [walkFn, hd, hp] at h
      | none =>
        cases he : e.err with
        | some err => simp [walkFn, hd, hp, he] at h
        | none =>
          simp only [walkFn, hd, hp, he, if_true] at h ⊢
          rw [walk_ok fs es _ h]
          simp [hd, addMissing_append]

theorem getPackages_ok (fs : FileSystem) (dir : String) (h : (getPackages fs dir).2 = none) :
    (getPackages fs dir).1 =
      addMissing (fs.ParseDir dir).1
        (((fs.WalkDir dir).filter (fun e => e.isDir)).flatMap (fun e => (fs.ParseDir e.path).1)) := by
  unfold getPackages at h ⊢
  cases hp : (fs.ParseDir dir).2 with
  | some err => simp [hp] at h
  | none =>
    simp only [hp] at h ⊢
    exact walk_ok fs _ _ h

theorem lookup_getPackages (fs : FileSystem) (dir : String) (n : String)
    (h : (getPackages fs dir).2 = none) :
    (getPackages fs dir).1.lookup n = (dirFound fs dir).lookup n := by
  rw [getPackages_ok fs dir h, lookup_addMissing, dirFound, List.lookup_append]

theorem foldl_addMissing (f : String → PkgMap) :
    ∀ (ds : List String) (pkgs : PkgMap),
      ds.foldl (fun acc d => addMissing acc (f d)) pkgs = addMissing pkgs (ds.flatMap f)
  | [], pkgs => by simp [addMissing]
  | d :: ds, pkgs => by
    rw [List.foldl_cons, foldl_addMissing f ds, List.flatMap_cons, addMissing_append]

theorem lookup_flatMap_congr (n : String) (f h : String → PkgMap) :
    ∀ (ds : List String), (∀ d ∈ ds, (f d).lookup n = (h d).lookup n) →
      (ds.flatMap f).lookup n = (ds.flatMap h).lookup n
  | [], _ => rfl
  | d :: ds, hh => by
    rw [List.flatMap_cons, List.flatMap_cons, List.lookup_append, List.lookup_append,
      hh d (List.mem_cons_self _ _),
      lookup_flatMap_congr n f h ds (fun x hx => hh x (List.mem_cons_of_mem _ hx))]

theorem newParser_packages (fs : FileSystem) (logger : List LogEntry) (dirs : List String) :
    (newParser fs logger dirs).ApplicationPackages =
      addMissing [] ((dirs.filter (readable fs)).flatMap (fun d => (getPackages fs d).1)) := by
  simp only [newParser, collectPackages_closed]
  rw [foldl_addMissing]
  rfl

/-- The packages that `newParser` holds: under each name the first package met
in the trees of the directories that it reads. -/
theorem mem_newParser_packages (fs : FileSystem) (logger : List LogEntry) (dirs : List String)
    (n : String) (pkg : Package) :
    (n, pkg) ∈ (newParser fs logger dirs).ApplicationPackages ↔
      (treeFound fs dirs).lookup n = some pkg := by
  rw [newParser_packages, mem_addMissing]
  have hc : ((dirs.filter (readable fs)).flatMap (fun d => (getPackages fs d).1)).lookup n
      = (treeFound fs dirs).lookup n := by
    unfold treeFound
    apply lookup_flatMap_congr
    intro d hd
    have hr : readable fs d = true := (List.mem_filter.mp hd).2
    have hg : (getPackages fs d).2 = none := by
      simp only [readable, Bool.and_eq_true] at hr
      simpa using hr.2
    exact lookup_getPackages fs d n hg
  rw [hc]
  simp

/-- C6, as stated, fails: the directories `api` and `worker` each hold a package
named `main`; `newParser` keeps the first one only, and the SLO of the valid block
in `worker` is absent from the specification that `Parse` returns. -/
theorem every_annotation_kept_counterexample :
    (newParser twoMainsFS [] ["api", "worker"]).ApplicationPackages = [("main", apiPkg)] ∧
    ¬ (∀ (fs : FileSystem) (g : Grammar) (dirs : List String) (dir : String)
        (np : String × Package) (f : String × File) (c : CommentGroup) (slo : SLO),
        dir ∈ dirs → errorsIs (fs.Stat dir) Sentinel.ErrNotExist = false →
        (getPackages fs dir).2 = none → np ∈ (getPackages fs dir).1 →
        f ∈ np.2.Files → c ∈ f.2.Comments →
        (g.Eval (trimSpace c.Text)).2 = none → slo ∈ (g.Eval (trimSpace c.Text)).1 →
        slo ∈ (Parse g (newParser fs [] dirs)).spec.SLOs) := by
  refine ⟨by decide, fun h => ?_⟩
  have h1 := h twoMainsFS sampleGrammar ["api", "worker"] "worker" ("main", workerPkg)
    ("worker/main.go", { Comments := [workerBlock] }) workerBlock
    { Name := "worker-latency", Description := "", Objective := 95000 }
    (by decide) (by decide) (by decide) (by decide) (by decide) (by decide) (by decide)
    (by decide)
  revert h1
  decide

/-- C6, amended: `newParser` holds one package under each package name, namely
the first package met under that name in the trees of the included directories
that exist and that `getPackages` reads without error (directories in the order
given; inside a tree the directory itself first, then the directories in the
order of the walk), and it holds no other package.  Every SLO entry of every
block on which `grammar.Eval` succeeds, in any file of a package so held, appears
in the SLOs returned by `Parse`, in whatever order the packages are visited; and
every SLO that `Parse` returns for the parser of `newParser` comes from such a
block of a held package, so a package met later under a name already held
contributes nothing. -/
theorem held_annotations_kept (fs : FileSystem) (g : Grammar) (logger : List LogEntry)
    (dirs : List String) :
    (∀ (n : String) (pkg : Package),
      (n, pkg) ∈ (newParser fs logger dirs).ApplicationPackages ↔
        (treeFound fs dirs).lookup n = some pkg) ∧
    ((newParser fs logger dirs).ApplicationPackages.map Prod.fst).Nodup ∧
    (∀ p : parser, p.ApplicationPackages.Perm (newParser fs logger dirs).ApplicationPackages →
      ∀ (n : String) (pkg : Package), (treeFound fs dirs).lookup n = some pkg →
        ∀ f ∈ pkg.Files, ∀ c ∈ f.2.Comments, (g.Eval (trimSpace c.Text)).2 = none →
          ∀ slo ∈ (g.Eval (trimSpace c.Text)).1, slo ∈ (Parse g p).spec.SLOs) ∧
    (∀ slo ∈ (Parse g (newParser fs logger dirs)).spec.SLOs,
      ∃ (n : String) (pkg : Package), (treeFound fs dirs).lookup n = some pkg ∧
        ∃ f ∈ pkg.Files, ∃ c ∈ f.2.Comments,
          (g.Eval (trimSpace c.Text)).2 = none ∧ slo ∈ (g.Eval (trimSpace c.Text)).1) := by
  refine ⟨mem_newParser_packages fs logger dirs, ?_, ?_, ?_⟩
  · rw [newParser_packages]
    exact addMissing_keys_nodup _ [] (by simp)
  · intro p hp n pkg hl f hf c hc hok slo hslo
    have hmem : (n, pkg) ∈ p.ApplicationPackages :=
      hp.mem_iff.mpr ((mem_newParser_packages fs logger dirs n pkg).mpr hl)
    rw [Parse_SLOs]
    refine List.mem_append_right _ (List.mem_flatMap.mpr ⟨f, ?_, ?_⟩)
    · exact List.mem_flatMap.mpr ⟨(n, pkg), hmem, hf⟩
    · exact mem_sloEntries g f.2.Comments c slo hc hok hslo
  · intro slo hslo
    rw [Parse_SLOs] at hslo
    have hinit : (newParser fs logger dirs).Spec.SLOs = [] := rfl
    rw [hinit, List.nil_append] at hslo
    obtain ⟨f, hf, hsf⟩ := List.mem_flatMap.mp hslo
    obtain ⟨np, hnp, hfp⟩ := List.mem_flatMap.mp hf
    obtain ⟨c, hc, hsc⟩ := List.mem_flatMap.mp hsf
    obtain ⟨hcm, hcok⟩ := List.mem_filter.mp hc
    refine ⟨np.1, np.2, (mem_newParser_packages fs logger dirs np.1 np.2).mp hnp,
      f, hfp, c, hcm, ?_, hsc⟩
    simpa [sloResult] using hcok

theorem held_annotations_kept_witness :
    (treeFound twoMainsFS ["api", "worker"]).lookup "main" = some apiPkg ∧
      ({ Name := "api-availability", Description := "", Objective := 99000 } : SLO) ∈
        (Parse sampleGrammar (newParser twoMainsFS [] ["api", "worker"])).spec.SLOs :=
  ⟨by decide,
    (held_annotations_kept twoMainsFS sampleGrammar [] ["api", "worker"]).2.2.1
      (newParser twoMainsFS [] ["api", "worker"]) (List.Perm.refl _) "main" apiPkg (by decide)
      ("api/main.go", { Comments := [apiBlock] }) (by decide) apiBlock (by decide) (by decide)
      _ (by decide)⟩

/-- C7, as stated, fails: `apiFirst` and `workerFirst` hold the same packages and
differ only in the order in which the map yields them; the service that wins and
the order of the SLOs differ. -/
theorem deterministic_order_counterexample :
    (Parse sampleGrammar apiFirst).spec.Service = "worker" ∧
    (Parse sampleGrammar workerFirst).spec.Service = "api" ∧
    ¬ (∀ (g : Grammar) (p q : parser), p.Spec = q.Spec →
        p.ApplicationPackages.Perm q.ApplicationPackages →
        (Parse g p).spec = (Parse g q).spec) := by
  refine ⟨by decide, by decide, fun h => ?_⟩
  have h1 := h sampleGrammar apiFirst workerFirst rfl (List.Perm.swap _ _ _)
  revert h1
  decide

/-- C7, amended: the SLOs that `Parse` returns are the initial ones followed by
the entries of the files in the order of the visit, blocks in source order within
a file.  Two runs that visit the same files in different orders return the same
SLO entries up to their order, and two runs that visit them in the same order
return the same specification. -/
theorem visit_order_decides (g : Grammar) (p q : parser) (hs : p.Spec = q.Spec)
    (hf : (visitedFiles p.ApplicationPackages).Perm (visitedFiles q.ApplicationPackages)) :
    (Parse g p).spec.SLOs =
        p.Spec.SLOs ++ (visitedFiles p.ApplicationPackages).flatMap
          (fun f => sloEntries g f.2.Comments) ∧
      (Parse g p).spec.SLOs.Perm (Parse g q).spec.SLOs ∧
      (visitedFiles p.ApplicationPackages = visitedFiles q.ApplicationPackages →
        (Parse g p).spec = (Parse g q).spec) := by
  refine ⟨Parse_SLOs g p, ?_, fun h => ?_⟩
  · rw [Parse_SLOs, Parse_SLOs, hs]
    exact List.Perm.append_left _ (List.Perm.flatMap_right _ hf)
  · rw [Parse_spec, Parse_spec, hs, h]

theorem visit_order_decides_witness :
    apiFirst.Spec = workerFirst.Spec ∧
      (visitedFiles apiFirst.ApplicationPackages).Perm
        (visitedFiles workerFirst.ApplicationPackages) ∧
      (Parse sampleGrammar apiFirst).spec.SLOs.Perm (Parse sampleGrammar workerFirst).spec.SLOs :=
  ⟨rfl, List.Perm.swap _ _ _,
    (visit_order_decides sampleGrammar apiFirst workerFirst rfl (List.Perm.swap _ _ _)).2.1⟩

/-- C8, as stated, fails in its second half: the directory `svc` exists and
`getPackages` returns an error for it; `newParser` writes the message to the
logger with `Info`, goes on to the next directory and returns a parser. -/
theorem adapter_error_absorbed_counterexample :
    errorsIs (brokenFS.Stat "svc") Sentinel.ErrNotExist = false ∧
    (getPackages brokenFS "svc").2 = some errPermission ∧
    newParser brokenFS [] ["svc", "api"] =
      { Spec := { Version := slothVersion, Service := "", Labels := [], SLOs := [] }
        GeneralInfoSource := "main.go"
        IncludedDirs := ["svc", "api"]
        ApplicationPackages := [("api", apiPkg)]
        Logger := [LogEntry.Info "permission denied"] } := by
  decide

/-- C8, amended: `newParser` returns a parser for every list of directories.  A
directory that does not exist is skipped, contributes no packages and writes
nothing to the logger; a directory for which `getPackages` returns an error
contributes no packages either, and its error message is written to the logger
with `Info`; the packages held are those of the remaining directories, in order,
each stored under a name not yet held. -/
theorem adapter_skips_and_logs (fs : FileSystem) (logger : List LogEntry) (dirs : List String) :
    (newParser fs logger dirs).Logger =
        logger ++ dirs.filterMap (fun dir =>
          if errorsIs (fs.Stat dir) Sentinel.ErrNotExist then none
          else (getPackages fs dir).2.map (fun err => LogEntry.Info err.msg)) ∧
      (newParser fs logger dirs).ApplicationPackages =
        (dirs.filter (fun dir =>
            !errorsIs (fs.Stat dir) Sentinel.ErrNotExist && (getPackages fs dir).2.isNone)).foldl
          (fun pkgs dir => addMissing pkgs (getPackages fs dir).1) [] := by
  simp [newParser, collectPackages_closed]

end Sloth
